import Mathlib

/-!
Verification of the call-throttle in qutebrowser/misc/throttle.py.

Shallow embedding of the `Throttle` class.  The argument set of a call
(Python's `*args, **kwargs`, stored in the `_CallArgs` dataclass) is
modelled by a single type parameter `α`.  Times are `Int` milliseconds,
matching `int(time.monotonic() * 1000)`.  The Qt single-shot timer
(`usertypes.Timer` with `setSingleShot(True)`) is modelled by a record
holding whether it is armed, its interval, and the absolute time at which
it is scheduled to fire (start time + interval).  The timer's `timeout`
signal is always (re)connected to `_call_pending` in the source, so the
callback needs no modelling.  A call of the wrapped function `self._func`
is modelled as an element appended to an output list, and an
`AssertionError` as the `none` value of an `Option` result.
-/

/-- Model of the single-shot Qt timer used by the throttle. -/
structure Timer where
  active : Bool
  interval : Int
  deadline : Int
deriving Repr, DecidableEq

/-- State of a `Throttle` instance: `_delay_ms`, `_pending_call`,
`_last_call_ms` and `_timer`. -/
structure Throttle (α : Type) where
  delay_ms : Int
  pending_call : Option α
  last_call_ms : Option Int
  timer : Timer
deriving Repr, DecidableEq

/-- A freshly constructed throttle (`Throttle.__init__`): no pending call,
no last-call time, timer not active. -/
def Throttle.init (α : Type) (delay : Int) : Throttle α :=
  ⟨delay, none, none, ⟨false, 0, 0⟩⟩

/-- Embedding of `Throttle.__call__`.  Returns the new state and the list
of calls made to the wrapped function `self._func` during this operation.

The source:
* if `_pending_call` is `None` and (`_last_call_ms` is `None` or
  `cur_time_ms - _last_call_ms > _delay_ms`): set `_last_call_ms`, call
  `_func` immediately and return;
* else if `_pending_call` is `None`: set the timer interval to
  `_delay_ms - (cur_time_ms - _last_call_ms)`, reconnect `timeout` to
  `_call_pending`, start the timer, and fall through to store the call;
* in either fall-through case, `_pending_call` is overwritten with the
  new arguments. -/
def throttleCall {α : Type} (s : Throttle α) (a : α) (now : Int) :
    Throttle α × List α :=
  match s.pending_call with
  | none =>
    match s.last_call_ms with
    | none => ({ s with last_call_ms := some now }, [a])
    | some last =>
      if now - last > s.delay_ms then
        ({ s with last_call_ms := some now }, [a])
      else
        ({ s with
            pending_call := some a,
            timer := ⟨true, s.delay_ms - (now - last),
                      now + (s.delay_ms - (now - last))⟩ }, [])
  | some _ => ({ s with pending_call := some a }, [])

/-- Embedding of `Throttle._call_pending`, generalised over the effect the
wrapped function has on the throttle state (the wrapped function may
re-enter the throttle).  `tgt p s` is the state after `self._func(*p.args,
**p.kwargs)` returns, when called in state `s` with pending arguments `p`.

The source asserts `self._pending_call is not None` (modelled by `none`,
an `AssertionError`), then calls `self._func` with the pending arguments,
then sets `self._pending_call = None`, then sets `self._last_call_ms` to
the current time.  Note the pending call is cleared only after `_func`
returns. -/
def callPendingWith {α : Type} (tgt : α → Throttle α → Throttle α)
    (s : Throttle α) (now : Int) : Option (Throttle α × List α) :=
  match s.pending_call with
  | none => none
  | some p =>
    let s1 := tgt p s
    some ({ s1 with pending_call := none, last_call_ms := some now }, [p])

/-- Embedding of `Throttle._call_pending` when the wrapped function does
not re-enter the throttle. -/
def callPending {α : Type} (s : Throttle α) (now : Int) :
    Option (Throttle α × List α) :=
  callPendingWith (fun _ t => t) s now

/-- Embedding of `Throttle.set_delay`: only `_delay_ms` is assigned. -/
def Throttle.set_delay {α : Type} (s : Throttle α) (d : Int) : Throttle α :=
  { s with delay_ms := d }

/-- Embedding of `Throttle.cancel`: the body is exactly
`self._timer.stop()`; no other field is touched. -/
def Throttle.cancel {α : Type} (s : Throttle α) : Throttle α :=
  { s with timer := { s.timer with active := false } }

/-- Events applied to a throttle: a call of the wrapped throttle
(`__call__` at a given monotonic time), the firing of the armed timer,
`cancel`, and `set_delay`. -/
inductive Op (α : Type) where
  | invoke (a : α) (t : Int)
  | fire (t : Int)
  | cancel
  | setDelay (d : Int)
deriving Repr, DecidableEq

/-- One event.  A `fire` event runs `_call_pending` exactly when the
single-shot timer is armed and its scheduled time has been reached; the
timer is deactivated by firing (single-shot).  A `fire` event for a
stopped timer is a no-op: a stopped Qt timer does not emit `timeout`. -/
def step {α : Type} (s : Throttle α) : Op α → Option (Throttle α × List α)
  | .invoke a t => some (throttleCall s a t)
  | .fire t =>
    if s.timer.active = true ∧ t = s.timer.deadline then
      callPending { s with timer := { s.timer with active := false } } t
    else
      some (s, [])
  | .cancel => some (s.cancel, [])
  | .setDelay d => some (s.set_delay d, [])

/-- Run a sequence of events, accumulating all calls made to the wrapped
function; `none` if an assertion failed along the way. -/
def run {α : Type} (s : Throttle α) : List (Op α) → Option (Throttle α × List α)
  | [] => some (s, [])
  | op :: ops =>
    match step s op with
    | none => none
    | some (s1, out1) =>
      match run s1 ops with
      | none => none
      | some (s2, out2) => some (s2, out1 ++ out2)

/-- Events lying strictly inside the suppression window that a cooldown
of C opens after an immediate dispatch at time t0: further throttle calls
at times t with t0 < t < t0 + C, timer fires attempted before t0 + C, and
cancel.  Changing the delay is not an in-window event. -/
def winOp {α : Type} (C t0 : Int) : Op α → Bool
  | .invoke _ t => decide (t0 < t) && decide (t < t0 + C)
  | .fire t => decide (t < t0 + C)
  | .cancel => true
  | .setDelay _ => false

/-- Throttle states reachable during a suppression window that was opened
by an immediate dispatch at time t0 under cooldown C: the delay is C, the
last call happened at t0, and if the timer is armed it is scheduled for
exactly t0 + C. -/
def InWindow {α : Type} (C t0 : Int) (s : Throttle α) : Prop :=
  s.delay_ms = C ∧ s.last_call_ms = some t0 ∧
    (s.timer.active = true → s.timer.deadline = t0 + C)

/-- Recogniser for invocation events. -/
def isInvoke {α : Type} : Op α → Bool
  | .invoke _ _ => true
  | _ => false

/-! ## Characterisation lemmas for the three branches of `__call__` -/

/-- When a call is already pending, `__call__` only overwrites the stored
arguments: no immediate dispatch, no timer change. -/
theorem throttleCall_overwrite {α : Type} (s : Throttle α) (a p : α) (now : Int)
    (h : s.pending_call = some p) :
    throttleCall s a now = ({ s with pending_call := some a }, []) := by
  unfold throttleCall
  rw [h]

/-- When nothing is pending and no call was ever made, `__call__`
dispatches immediately. -/
theorem throttleCall_first {α : Type} (s : Throttle α) (a : α) (now : Int)
    (hp : s.pending_call = none) (hl : s.last_call_ms = none) :
    throttleCall s a now = ({ s with last_call_ms := some now }, [a]) := by
  unfold throttleCall
  rw [hp, hl]

/-- When nothing is pending and the last call is older than the delay,
`__call__` dispatches immediately. -/
theorem throttleCall_expired {α : Type} (s : Throttle α) (a : α) (now last : Int)
    (hp : s.pending_call = none) (hl : s.last_call_ms = some last)
    (hout : now - last > s.delay_ms) :
    throttleCall s a now = ({ s with last_call_ms := some now }, [a]) := by
  unfold throttleCall
  rw [hp, hl]
  simp only [if_pos hout]

/-- When nothing is pending but the last call is within the delay,
`__call__` stores the call and arms the single-shot timer with interval
`delay_ms - (now - last)`. -/
theorem throttleCall_defer {α : Type} (s : Throttle α) (a : α) (now last : Int)
    (hp : s.pending_call = none) (hl : s.last_call_ms = some last)
    (hin : ¬ now - last > s.delay_ms) :
    throttleCall s a now =
      ({ s with
          pending_call := some a,
          timer := ⟨true, s.delay_ms - (now - last),
                    now + (s.delay_ms - (now - last))⟩ }, []) := by
  unfold throttleCall
  rw [hp, hl]
  simp only [if_neg hin]

theorem run_nil {α : Type} (s : Throttle α) : run s [] = some (s, []) := rfl

theorem run_cons {α : Type} (s : Throttle α) (op : Op α) (ops : List (Op α)) :
    run s (op :: ops) =
      match step s op with
      | none => none
      | some (s1, out1) =>
        match run s1 ops with
        | none => none
        | some (s2, out2) => some (s2, out1 ++ out2) := rfl

/-- The two immediate-dispatch branches together: nothing pending and
either no call ever made or the last one older than the delay. -/
theorem throttleCall_immediate {α : Type} (s : Throttle α) (a : α) (now : Int)
    (hp : s.pending_call = none)
    (himm : s.last_call_ms = none ∨
      ∃ l, s.last_call_ms = some l ∧ now - l > s.delay_ms) :
    throttleCall s a now = ({ s with last_call_ms := some now }, [a]) := by
  rcases himm with hl | ⟨l, hl, hgt⟩
  · exact throttleCall_first s a now hp hl
  · exact throttleCall_expired s a now l hp hl hgt

/-- When a call is pending, `_call_pending` dispatches it and then clears
the pending slot and records the time. -/
theorem callPending_some {α : Type} (s : Throttle α) (now : Int) (p : α)
    (h : s.pending_call = some p) :
    callPending s now =
      some ({ s with pending_call := none, last_call_ms := some now }, [p]) := by
  unfold callPending callPendingWith
  rw [h]

theorem step_fire_hit {α : Type} (s : Throttle α) (t : Int)
    (ha : s.timer.active = true) (hd : t = s.timer.deadline) :
    step s (.fire t) =
      callPending { s with timer := { s.timer with active := false } } t := by
  simp only [step]
  rw [if_pos ⟨ha, hd⟩]

theorem step_fire_miss {α : Type} (s : Throttle α) (t : Int)
    (h : ¬ (s.timer.active = true ∧ t = s.timer.deadline)) :
    step s (.fire t) = some (s, []) := by
  simp only [step]
  rw [if_neg h]

theorem run_cons_some {α : Type} {s s1 : Throttle α} {op : Op α}
    {ops : List (Op α)} {out1 : List α} (h : step s op = some (s1, out1)) :
    run s (op :: ops) =
      match run s1 ops with
      | none => none
      | some (s2, out2) => some (s2, out1 ++ out2) := by
  rw [run_cons, h]

/-! ## C5: leading-edge dispatch on a fresh throttle -/

/-- C5: for a freshly constructed throttle (no last-call time recorded and
no call pending), the first call invokes the wrapped function with the
given arguments synchronously (output is exactly that one call) and
records the invocation timestamp in `_last_call_ms`. -/
theorem first_call_immediate {α : Type} (s : Throttle α) (a : α) (t : Int)
    (hp : s.pending_call = none) (hl : s.last_call_ms = none) :
    throttleCall s a t = ({ s with last_call_ms := some t }, [a]) :=
  throttleCall_first s a t hp hl

theorem first_call_immediate_witness :
    throttleCall (Throttle.init Nat 100) 7 42 =
      ({ Throttle.init Nat 100 with last_call_ms := some 42 }, [7]) :=
  first_call_immediate (Throttle.init Nat 100) 7 42 rfl rfl

/-! ## C3: `_call_pending` with no pending call -/

/-- C3 counterexample: the claim says that running the deferred-fire
callback with `_pending_call` absent is a silent no-op that must not
raise.  In the source, `_call_pending` begins with
`assert self._pending_call is not None`, so on a state with no pending
call it raises `AssertionError` (modelled by `none`) instead of returning
the unchanged state with no call made. -/
theorem callPending_empty_not_noop :
    callPending (Throttle.init Nat 100) 50 = none ∧
    callPending (Throttle.init Nat 100) 50 ≠
      some (Throttle.init Nat 100, []) := by
  refine ⟨rfl, ?_⟩
  intro h
  exact Option.noConfusion h

/-- C3 amended: on every state with `_pending_call` absent, the
deferred-fire callback `_call_pending` fails its assertion (raises
`AssertionError`); it neither invokes the wrapped function nor returns
normally. -/
theorem callPending_empty_asserts {α : Type} (s : Throttle α) (now : Int)
    (h : s.pending_call = none) : callPending s now = none := by
  unfold callPending callPendingWith
  rw [h]

theorem callPending_empty_asserts_witness :
    callPending (Throttle.init Nat 5) 0 = none :=
  callPending_empty_asserts (Throttle.init Nat 5) 0 rfl

/-! ## C9: the armed timer interval is never negative -/

/-- C9: whenever a call is deferred (nothing pending, a last call
recorded, and the elapsed time since it does not exceed the delay), the
timer is armed with interval `delay_ms - (now - last)`, this interval is
non-negative, and the scheduled fire time is not in the past.  The only
assumption is the deferral condition itself, so no explicit clamping is
needed. -/
theorem armed_interval_nonneg {α : Type} (s : Throttle α) (a : α)
    (now last : Int)
    (hp : s.pending_call = none) (hl : s.last_call_ms = some last)
    (hin : now - last ≤ s.delay_ms) :
    (throttleCall s a now).1.timer =
      ⟨true, s.delay_ms - (now - last), now + (s.delay_ms - (now - last))⟩ ∧
    0 ≤ s.delay_ms - (now - last) ∧
    now ≤ (throttleCall s a now).1.timer.deadline := by
  have hni : ¬ now - last > s.delay_ms := by omega
  rw [throttleCall_defer s a now last hp hl hni]
  refine ⟨rfl, by omega, ?_⟩
  show now ≤ now + (s.delay_ms - (now - last))
  omega

theorem armed_interval_nonneg_witness :
    (throttleCall (⟨100, none, some 0, ⟨false, 0, 0⟩⟩ : Throttle Nat) 2 10).1.timer
        = ⟨true, (100 : Int) - (10 - 0), 10 + ((100 : Int) - (10 - 0))⟩ ∧
    (0 : Int) ≤ (100 : Int) - (10 - 0) ∧
    (10 : Int) ≤ (throttleCall (⟨100, none, some 0, ⟨false, 0, 0⟩⟩ : Throttle Nat) 2 10).1.timer.deadline :=
  armed_interval_nonneg (⟨100, none, some 0, ⟨false, 0, 0⟩⟩ : Throttle Nat) 2 10 0
    rfl rfl (by decide)

/-! ## C6: the disabled sentinel delay of -1 -/

/-- C6 counterexample: the claim says a delay of -1 makes every call
dispatch immediately regardless of the prior history of the throttle.
But the immediate-dispatch branch is only reachable when no call is
pending: start with delay 100, call at time 0 (immediate), call at time
10 (deferred, pending stored), set the delay to -1, call at time 20.
The last call is not dispatched: the output list stays at the single
immediate call and the new arguments merely replace the pending ones. -/
theorem disabled_delay_pending_not_immediate :
    run (Throttle.init Nat 100)
        [.invoke 1 0, .invoke 2 10, .setDelay (-1), .invoke 3 20] =
      some (⟨-1, some 3, some 0, ⟨true, 90, 100⟩⟩, [1]) := by
  decide

/-- C6 amended: with delay -1, every call made while no call is pending
is dispatched immediately, whatever the timing (the only other
assumption, `l ≤ t`, is monotonicity of the clock).  In particular a
throttle that has always had delay -1 dispatches every call immediately,
since it never stores a pending call.  A pending call stored before the
delay was changed to -1, however, makes subsequent calls merely
overwrite the pending arguments. -/
theorem disabled_delay_immediate_when_no_pending {α : Type} (s : Throttle α)
    (a : α) (t : Int)
    (hd : s.delay_ms = -1) (hp : s.pending_call = none)
    (hmono : ∀ l, s.last_call_ms = some l → l ≤ t) :
    throttleCall s a t = ({ s with last_call_ms := some t }, [a]) := by
  cases hl : s.last_call_ms with
  | none => exact throttleCall_first s a t hp hl
  | some l =>
    have hle := hmono l hl
    refine throttleCall_expired s a t l hp hl ?_
    rw [hd]
    omega

theorem disabled_delay_immediate_witness :
    throttleCall (⟨-1, none, some 41, ⟨false, 0, 0⟩⟩ : Throttle Nat) 9 41 =
      ({ (⟨-1, none, some 41, ⟨false, 0, 0⟩⟩ : Throttle Nat) with
          last_call_ms := some 41 }, [9]) :=
  disabled_delay_immediate_when_no_pending
    (⟨-1, none, some 41, ⟨false, 0, 0⟩⟩ : Throttle Nat) 9 41 rfl rfl
    (fun l hl => by cases hl; decide)

/-! ## C7: set_delay only changes the delay -/

/-- C7: `set_delay` changes only the delay used by future calls; the
pending call, the last-call time, and the timer (in particular the
scheduled fire time of an already-armed timer) are all left unchanged.
Moreover, in a run that arms a deferred call under cooldown C1 and then
changes the delay to C2 before the timer fires, the deferred call still
fires at the originally scheduled time t0 + C1. -/
theorem set_delay_frame {α : Type} (C1 C2 t0 t1 : Int) (a b : α)
    (s0 : Throttle α)
    (hd : s0.delay_ms = C1) (hp : s0.pending_call = none)
    (hl : s0.last_call_ms = none)
    (_h01 : t0 < t1) (h1 : t1 < t0 + C1) :
    (∀ s : Throttle α, (s.set_delay C2).pending_call = s.pending_call ∧
        (s.set_delay C2).last_call_ms = s.last_call_ms ∧
        (s.set_delay C2).timer = s.timer ∧
        (s.set_delay C2).delay_ms = C2) ∧
    ∃ s', run s0 [.invoke a t0, .invoke b t1, .setDelay C2, .fire (t0 + C1)] =
        some (s', [a, b]) ∧ s'.last_call_ms = some (t0 + C1) ∧
        s'.pending_call = none := by
  refine ⟨fun s => ⟨rfl, rfl, rfl, rfl⟩, ?_⟩
  have st1 : step s0 (Op.invoke a t0) =
      some ({ s0 with last_call_ms := some t0 }, [a]) := by
    show some (throttleCall s0 a t0) = _
    rw [throttleCall_first s0 a t0 hp hl]
  have hin : ¬ t1 - t0 > ({ s0 with last_call_ms := some t0 } : Throttle α).delay_ms := by
    show ¬ t1 - t0 > s0.delay_ms
    rw [hd]
    omega
  have st2 : step ({ s0 with last_call_ms := some t0 } : Throttle α) (Op.invoke b t1) =
      some ({ s0 with
              last_call_ms := some t0,
              pending_call := some b,
              timer := ⟨true, s0.delay_ms - (t1 - t0),
                        t1 + (s0.delay_ms - (t1 - t0))⟩ }, []) := by
    show some (throttleCall ({ s0 with last_call_ms := some t0 } : Throttle α) b t1) = _
    rw [throttleCall_defer ({ s0 with last_call_ms := some t0 } : Throttle α)
      b t1 t0 hp rfl hin]
  have st4 : step ({ s0 with
              last_call_ms := some t0,
              pending_call := some b,
              delay_ms := C2,
              timer := ⟨true, s0.delay_ms - (t1 - t0),
                        t1 + (s0.delay_ms - (t1 - t0))⟩ } : Throttle α)
        (Op.fire (t0 + C1)) =
      some ({ s0 with
              last_call_ms := some (t0 + C1),
              pending_call := none,
              delay_ms := C2,
              timer := ⟨false, s0.delay_ms - (t1 - t0),
                        t1 + (s0.delay_ms - (t1 - t0))⟩ }, [b]) := by
    rw [step_fire_hit ({ s0 with
              last_call_ms := some t0,
              pending_call := some b,
              delay_ms := C2,
              timer := ⟨true, s0.delay_ms - (t1 - t0),
                        t1 + (s0.delay_ms - (t1 - t0))⟩ } : Throttle α)
      (t0 + C1) rfl
      (show t0 + C1 = t1 + (s0.delay_ms - (t1 - t0)) by rw [hd]; omega)]
    exact callPending_some ({ s0 with
              last_call_ms := some t0,
              pending_call := some b,
              delay_ms := C2,
              timer := ⟨false, s0.delay_ms - (t1 - t0),
                        t1 + (s0.delay_ms - (t1 - t0))⟩ } : Throttle α)
      (t0 + C1) b rfl
  refine ⟨({ s0 with
              last_call_ms := some (t0 + C1),
              pending_call := none,
              delay_ms := C2,
              timer := ⟨false, s0.delay_ms - (t1 - t0),
                        t1 + (s0.delay_ms - (t1 - t0))⟩ } : Throttle α),
    ?_, rfl, rfl⟩
  have st3 : step ({ s0 with
            last_call_ms := some t0,
            pending_call := some b,
            timer := ⟨true, s0.delay_ms - (t1 - t0),
                      t1 + (s0.delay_ms - (t1 - t0))⟩ } : Throttle α)
      (Op.setDelay C2) =
    some (({ s0 with
            last_call_ms := some t0,
            pending_call := some b,
            delay_ms := C2,
            timer := ⟨true, s0.delay_ms - (t1 - t0),
                      t1 + (s0.delay_ms - (t1 - t0))⟩ } : Throttle α), []) := rfl
  rw [run_cons_some st1, run_cons_some st2, run_cons_some st3,
    run_cons_some st4, run_nil]
  rfl

theorem set_delay_frame_witness :
    (∀ s : Throttle Nat, (s.set_delay 30).pending_call = s.pending_call ∧
        (s.set_delay 30).last_call_ms = s.last_call_ms ∧
        (s.set_delay 30).timer = s.timer ∧
        (s.set_delay 30).delay_ms = 30) ∧
    ∃ s', run (Throttle.init Nat 100)
        [.invoke 1 0, .invoke 2 10, .setDelay 30, .fire (0 + 100)] =
        some (s', [1, 2]) ∧ s'.last_call_ms = some ((0 : Int) + 100) ∧
        s'.pending_call = none :=
  set_delay_frame 100 30 0 10 1 2 (Throttle.init Nat 100) rfl rfl rfl
    (by decide) (by decide)

/-! ## C1: coalescing of a burst into one immediate and one deferred call -/

/-- C1: with cooldown C > 0, if a call with arguments a is dispatched
immediately at time t0 and calls with arguments b and then c both arrive
inside the suppression window (t0, t0 + C), then the single armed timer
fires at t0 + C with arguments c (the most recently received ones, never
b), and the wrapped function is called exactly twice across the whole
sequence: once immediately with a and once deferred with c. -/
theorem throttle_coalescing {α : Type} (C t0 t1 t2 : Int) (a b c : α)
    (s0 : Throttle α)
    (hd : s0.delay_ms = C) (_hC : 0 < C) (hp : s0.pending_call = none)
    (himm : s0.last_call_ms = none ∨
      ∃ l, s0.last_call_ms = some l ∧ t0 - l > s0.delay_ms)
    (_h01 : t0 < t1) (h12 : t1 ≤ t2) (h2 : t2 < t0 + C) :
    ∃ s', run s0 [.invoke a t0, .invoke b t1, .invoke c t2, .fire (t0 + C)] =
        some (s', [a, c]) ∧
      s'.pending_call = none ∧ s'.last_call_ms = some (t0 + C) := by
  have st1 : step s0 (Op.invoke a t0) =
      some ({ s0 with last_call_ms := some t0 }, [a]) := by
    show some (throttleCall s0 a t0) = _
    rw [throttleCall_immediate s0 a t0 hp himm]
  have hin : ¬ t1 - t0 > s0.delay_ms := by rw [hd]; omega
  have st2 : step ({ s0 with last_call_ms := some t0 } : Throttle α)
        (Op.invoke b t1) =
      some ({ s0 with
              last_call_ms := some t0,
              pending_call := some b,
              timer := ⟨true, s0.delay_ms - (t1 - t0),
                        t1 + (s0.delay_ms - (t1 - t0))⟩ }, []) := by
    show some (throttleCall ({ s0 with last_call_ms := some t0 } : Throttle α) b t1) = _
    rw [throttleCall_defer ({ s0 with last_call_ms := some t0 } : Throttle α)
      b t1 t0 hp rfl hin]
  have st3 : step ({ s0 with
              last_call_ms := some t0,
              pending_call := some b,
              timer := ⟨true, s0.delay_ms - (t1 - t0),
                        t1 + (s0.delay_ms - (t1 - t0))⟩ } : Throttle α)
        (Op.invoke c t2) =
      some (({ s0 with
              last_call_ms := some t0,
              pending_call := some c,
              timer := ⟨true, s0.delay_ms - (t1 - t0),
                        t1 + (s0.delay_ms - (t1 - t0))⟩ } : Throttle α), []) := by
    show some (throttleCall ({ s0 with
              last_call_ms := some t0,
              pending_call := some b,
              timer := ⟨true, s0.delay_ms - (t1 - t0),
                        t1 + (s0.delay_ms - (t1 - t0))⟩ } : Throttle α) c t2) = _
    rw [throttleCall_overwrite ({ s0 with
              last_call_ms := some t0,
              pending_call := some b,
              timer := ⟨true, s0.delay_ms - (t1 - t0),
                        t1 + (s0.delay_ms - (t1 - t0))⟩ } : Throttle α) c b t2 rfl]
  have st4 : step ({ s0 with
              last_call_ms := some t0,
              pending_call := some c,
              timer := ⟨true, s0.delay_ms - (t1 - t0),
                        t1 + (s0.delay_ms - (t1 - t0))⟩ } : Throttle α)
        (Op.fire (t0 + C)) =
      some ({ s0 with
              last_call_ms := some (t0 + C),
              pending_call := none,
              timer := ⟨false, s0.delay_ms - (t1 - t0),
                        t1 + (s0.delay_ms - (t1 - t0))⟩ }, [c]) := by
    rw [step_fire_hit ({ s0 with
              last_call_ms := some t0,
              pending_call := some c,
              timer := ⟨true, s0.delay_ms - (t1 - t0),
                        t1 + (s0.delay_ms - (t1 - t0))⟩ } : Throttle α)
      (t0 + C) rfl
      (show t0 + C = t1 + (s0.delay_ms - (t1 - t0)) by rw [hd]; omega)]
    exact callPending_some ({ s0 with
              last_call_ms := some t0,
              pending_call := some c,
              timer := ⟨false, s0.delay_ms - (t1 - t0),
                        t1 + (s0.delay_ms - (t1 - t0))⟩ } : Throttle α)
      (t0 + C) c rfl
  refine ⟨({ s0 with
              last_call_ms := some (t0 + C),
              pending_call := none,
              timer := ⟨false, s0.delay_ms - (t1 - t0),
                        t1 + (s0.delay_ms - (t1 - t0))⟩ } : Throttle α),
    ?_, rfl, rfl⟩
  rw [run_cons_some st1, run_cons_some st2, run_cons_some st3,
    run_cons_some st4, run_nil]
  rfl

theorem throttle_coalescing_witness :
    ∃ s', run (Throttle.init Nat 100)
        [.invoke 1 0, .invoke 2 10, .invoke 3 50, .fire (0 + 100)] =
        some (s', [1, 3]) ∧
      s'.pending_call = none ∧ s'.last_call_ms = some ((0 : Int) + 100) :=
  throttle_coalescing 100 0 10 50 1 2 3 (Throttle.init Nat 100) rfl (by decide)
    rfl (Or.inl rfl) (by decide) (by decide) (by decide)

/-! ## C2: the suppression window -/

/-- A single in-window event makes no call to the wrapped function and
keeps the window invariant. -/
theorem step_in_window {α : Type} (C t0 : Int) (s : Throttle α) (op : Op α)
    (hs : InWindow C t0 s) (hop : winOp C t0 op = true) :
    ∃ s1, step s op = some (s1, []) ∧ InWindow C t0 s1 := by
  obtain ⟨hd, hl, hact⟩ := hs
  cases op with
  | invoke a t =>
    have hts : t0 < t ∧ t < t0 + C := by
      simpa [winOp] using hop
    cases hpc : s.pending_call with
    | some p =>
      refine ⟨{ s with pending_call := some a }, ?_, hd, hl, hact⟩
      show some (throttleCall s a t) = _
      rw [throttleCall_overwrite s a p t hpc]
    | none =>
      have hin : ¬ t - t0 > s.delay_ms := by rw [hd]; omega
      refine ⟨{ s with
                pending_call := some a,
                timer := ⟨true, s.delay_ms - (t - t0),
                          t + (s.delay_ms - (t - t0))⟩ }, ?_, hd, hl, ?_⟩
      · show some (throttleCall s a t) = _
        rw [throttleCall_defer s a t t0 hpc hl hin]
      · intro _
        show t + (s.delay_ms - (t - t0)) = t0 + C
        rw [hd]
        omega
  | fire t =>
    have ht : t < t0 + C := by simpa [winOp] using hop
    have hc : ¬ (s.timer.active = true ∧ t = s.timer.deadline) := by
      rintro ⟨ha, hdl⟩
      have := hact ha
      omega
    exact ⟨s, step_fire_miss s t hc, hd, hl, hact⟩
  | cancel =>
    refine ⟨s.cancel, rfl, hd, hl, ?_⟩
    intro h
    exact absurd (show s.cancel.timer.active = false from rfl)
      (by rw [h]; exact fun hh => Bool.noConfusion hh)
  | setDelay d => simp [winOp] at hop

/-- Running any sequence of in-window events makes no call to the wrapped
function. -/
theorem run_in_window {α : Type} (C t0 : Int) (s : Throttle α)
    (ops : List (Op α))
    (hs : InWindow C t0 s) (hops : ∀ op ∈ ops, winOp C t0 op = true) :
    ∃ s', run s ops = some (s', []) ∧ InWindow C t0 s' := by
  induction ops generalizing s with
  | nil => exact ⟨s, rfl, hs⟩
  | cons op ops ih =>
    obtain ⟨s1, h1, hw1⟩ := step_in_window C t0 s op hs (hops op (by simp))
    obtain ⟨s', h2, hw2⟩ := ih s1 hw1 (fun o ho => hops o (by simp [ho]))
    refine ⟨s', ?_, hw2⟩
    rw [run_cons_some h1, h2]
    rfl

/-- C2: with cooldown C, after an immediate dispatch at time t0, no call
arriving at a time t with t0 < t < t0 + C is dispatched immediately, and
the wrapped function is not called again before t0 + C by any sequence of
in-window events (further calls of the throttle, timer fires attempted
before t0 + C, and cancels): the total output over the window is the one
immediate call. -/
theorem throttle_suppression_window {α : Type} (C t0 : Int) (a : α)
    (s0 : Throttle α) (ops : List (Op α))
    (hd : s0.delay_ms = C) (hp : s0.pending_call = none)
    (hta : s0.timer.active = false)
    (himm : s0.last_call_ms = none ∨
      ∃ l, s0.last_call_ms = some l ∧ t0 - l > s0.delay_ms)
    (hops : ∀ op ∈ ops, winOp C t0 op = true) :
    ∃ s', run s0 (Op.invoke a t0 :: ops) = some (s', [a]) := by
  have st1 : step s0 (Op.invoke a t0) =
      some ({ s0 with last_call_ms := some t0 }, [a]) := by
    show some (throttleCall s0 a t0) = _
    rw [throttleCall_immediate s0 a t0 hp himm]
  have hw : InWindow C t0 ({ s0 with last_call_ms := some t0 } : Throttle α) := by
    refine ⟨hd, rfl, ?_⟩
    intro h
    have h' : s0.timer.active = true := h
    rw [hta] at h'
    exact Bool.noConfusion h'
  obtain ⟨s', h2, _⟩ :=
    run_in_window C t0 ({ s0 with last_call_ms := some t0 } : Throttle α) ops hw hops
  refine ⟨s', ?_⟩
  rw [run_cons_some st1, h2]
  rfl

theorem throttle_suppression_window_witness :
    ∃ s', run (Throttle.init Nat 100)
        [Op.invoke 1 0, Op.invoke 2 10, Op.fire 60, Op.cancel, Op.invoke 3 99] =
      some (s', [1]) :=
  throttle_suppression_window 100 0 1 (Throttle.init Nat 100)
    [Op.invoke 2 10, Op.fire 60, Op.cancel, Op.invoke 3 99]
    rfl rfl rfl (Or.inl rfl) (by decide)

/-! ## C4 and C10: the effect of cancel -/

/-- In a state with a pending call stored and the timer stopped, every
event leaves the pending slot occupied and the timer stopped, and makes
no call to the wrapped function. -/
theorem step_stuck {α : Type} (s : Throttle α) (op : Op α)
    (hp : s.pending_call ≠ none) (ht : s.timer.active = false) :
    ∃ s1, step s op = some (s1, []) ∧
      s1.pending_call ≠ none ∧ s1.timer.active = false := by
  cases op with
  | invoke a t =>
    cases hpc : s.pending_call with
    | none => exact absurd hpc hp
    | some p =>
      refine ⟨{ s with pending_call := some a }, ?_, ?_, ht⟩
      · show some (throttleCall s a t) = _
        rw [throttleCall_overwrite s a p t hpc]
      · intro h
        exact Option.noConfusion h
  | fire t =>
    have hc : ¬ (s.timer.active = true ∧ t = s.timer.deadline) := by
      rintro ⟨ha, _⟩
      rw [ht] at ha
      exact Bool.noConfusion ha
    exact ⟨s, step_fire_miss s t hc, hp, ht⟩
  | cancel => exact ⟨s.cancel, rfl, hp, rfl⟩
  | setDelay d => exact ⟨s.set_delay d, rfl, hp, ht⟩

/-- Once a pending call is stored while the timer is stopped, no sequence
of events ever calls the wrapped function again: the throttle is stuck. -/
theorem run_stuck {α : Type} (s : Throttle α) (ops : List (Op α))
    (hp : s.pending_call ≠ none) (ht : s.timer.active = false) :
    ∃ s', run s ops = some (s', []) ∧
      s'.pending_call ≠ none ∧ s'.timer.active = false := by
  induction ops generalizing s with
  | nil => exact ⟨s, rfl, hp, ht⟩
  | cons op ops ih =>
    obtain ⟨s1, h1, hp1, ht1⟩ := step_stuck s op hp ht
    obtain ⟨s', h2, hp2, ht2⟩ := ih s1 hp1 ht1
    refine ⟨s', ?_, hp2, ht2⟩
    rw [run_cons_some h1, h2]
    rfl

/-- C10: if cancel runs while a call is pending and the timer armed, then
the throttle is permanently stuck: every later call of the throttle
merely overwrites the stored pending arguments without dispatching
immediately, the timer stays disarmed (so the pending call never fires),
and across any later sequence of calls the wrapped function is never
invoked again. -/
theorem cancel_then_stuck {α : Type} (s0 : Throttle α) (p : α)
    (ops : List (Op α))
    (hp : s0.pending_call = some p) (_ht : s0.timer.active = true)
    (_hops : ∀ op ∈ ops, isInvoke op = true) :
    (∀ (a : α) (t : Int), throttleCall s0.cancel a t =
        ({ s0.cancel with pending_call := some a }, [])) ∧
    ∃ s', run s0.cancel ops = some (s', []) ∧
      s'.pending_call ≠ none ∧ s'.timer.active = false := by
  constructor
  · intro a t
    exact throttleCall_overwrite s0.cancel a p t hp
  · refine run_stuck s0.cancel ops ?_ rfl
    show s0.pending_call ≠ none
    rw [hp]
    intro h
    exact Option.noConfusion h

theorem cancel_then_stuck_witness :
    (∀ (a : Nat) (t : Int), throttleCall
        (Throttle.cancel (⟨100, some 2, some 0, ⟨true, 90, 100⟩⟩ : Throttle Nat)) a t =
        ({ Throttle.cancel (⟨100, some 2, some 0, ⟨true, 90, 100⟩⟩ : Throttle Nat) with
            pending_call := some a }, [])) ∧
    ∃ s', run (Throttle.cancel (⟨100, some 2, some 0, ⟨true, 90, 100⟩⟩ : Throttle Nat))
        [Op.invoke 5 150, Op.invoke 6 400] = some (s', []) ∧
      s'.pending_call ≠ none ∧ s'.timer.active = false :=
  cancel_then_stuck (⟨100, some 2, some 0, ⟨true, 90, 100⟩⟩ : Throttle Nat) 2
    [Op.invoke 5 150, Op.invoke 6 400] rfl rfl (by decide)

/-- C4 counterexample: the claim says cancel discards (clears) any stored
pending call.  In the source, cancel is exactly a timer stop: after an
immediate call with 1 at time 0, a deferred call with 2 at time 10 and a
cancel, the pending slot still holds the arguments 2 — it is not
cleared. -/
theorem cancel_does_not_clear_pending :
    run (Throttle.init Nat 100) [Op.invoke 1 0, Op.invoke 2 10, Op.cancel] =
      some (⟨100, some 2, some 0, ⟨false, 90, 100⟩⟩, [1]) ∧
    (⟨100, some 2, some 0, ⟨false, 90, 100⟩⟩ : Throttle Nat).pending_call ≠ none := by
  refine ⟨by decide, ?_⟩
  intro h
  exact Option.noConfusion h

/-- C4 amended: cancel stops the timer if armed (leaving every other
field, including the stored pending call, unchanged) and is idempotent;
the stored pending call is not cleared, but it is nevertheless never
dispatched: in the scenario where a call with a is dispatched
immediately, a call with b is deferred inside the window and cancel runs
before the timer fires, the wrapped function is never called with b — in
fact it is never called again across any later sequence of events. -/
theorem cancel_amended {α : Type} (C t0 t1 : Int) (a b : α) (s0 : Throttle α)
    (ops : List (Op α))
    (hd : s0.delay_ms = C) (hp : s0.pending_call = none)
    (hl : s0.last_call_ms = none) (h1 : t1 < t0 + C) :
    (∀ s : Throttle α, (Throttle.cancel s).timer.active = false ∧
        (Throttle.cancel s).pending_call = s.pending_call ∧
        (Throttle.cancel s).last_call_ms = s.last_call_ms ∧
        (Throttle.cancel s).delay_ms = s.delay_ms ∧
        Throttle.cancel (Throttle.cancel s) = Throttle.cancel s) ∧
    ∃ s3, run s0 [Op.invoke a t0, Op.invoke b t1, Op.cancel] = some (s3, [a]) ∧
      s3.pending_call = some b ∧ s3.timer.active = false ∧
      ∃ s', run s3 ops = some (s', []) ∧ s'.pending_call ≠ none ∧
        s'.timer.active = false := by
  refine ⟨fun s => ⟨rfl, rfl, rfl, rfl, rfl⟩, ?_⟩
  have st1 : step s0 (Op.invoke a t0) =
      some ({ s0 with last_call_ms := some t0 }, [a]) := by
    show some (throttleCall s0 a t0) = _
    rw [throttleCall_first s0 a t0 hp hl]
  have hin : ¬ t1 - t0 > s0.delay_ms := by rw [hd]; omega
  have st2 : step ({ s0 with last_call_ms := some t0 } : Throttle α)
        (Op.invoke b t1) =
      some ({ s0 with
              last_call_ms := some t0,
              pending_call := some b,
              timer := ⟨true, s0.delay_ms - (t1 - t0),
                        t1 + (s0.delay_ms - (t1 - t0))⟩ }, []) := by
    show some (throttleCall ({ s0 with last_call_ms := some t0 } : Throttle α) b t1) = _
    rw [throttleCall_defer ({ s0 with last_call_ms := some t0 } : Throttle α)
      b t1 t0 hp rfl hin]
  have st3 : step ({ s0 with
              last_call_ms := some t0,
              pending_call := some b,
              timer := ⟨true, s0.delay_ms - (t1 - t0),
                        t1 + (s0.delay_ms - (t1 - t0))⟩ } : Throttle α) Op.cancel =
      some (({ s0 with
              last_call_ms := some t0,
              pending_call := some b,
              timer := ⟨false, s0.delay_ms - (t1 - t0),
                        t1 + (s0.delay_ms - (t1 - t0))⟩ } : Throttle α), []) := rfl
  refine ⟨({ s0 with
              last_call_ms := some t0,
              pending_call := some b,
              timer := ⟨false, s0.delay_ms - (t1 - t0),
                        t1 + (s0.delay_ms - (t1 - t0))⟩ } : Throttle α),
    ?_, rfl, rfl, ?_⟩
  · rw [run_cons_some st1, run_cons_some st2, run_cons_some st3, run_nil]
    rfl
  · refine run_stuck ({ s0 with
              last_call_ms := some t0,
              pending_call := some b,
              timer := ⟨false, s0.delay_ms - (t1 - t0),
                        t1 + (s0.delay_ms - (t1 - t0))⟩ } : Throttle α) ops ?_ rfl
    intro h
    exact Option.noConfusion h

theorem cancel_amended_witness :
    (∀ s : Throttle Nat, (Throttle.cancel s).timer.active = false ∧
        (Throttle.cancel s).pending_call = s.pending_call ∧
        (Throttle.cancel s).last_call_ms = s.last_call_ms ∧
        (Throttle.cancel s).delay_ms = s.delay_ms ∧
        Throttle.cancel (Throttle.cancel s) = Throttle.cancel s) ∧
    ∃ s3, run (Throttle.init Nat 100) [Op.invoke 1 0, Op.invoke 2 10, Op.cancel] =
        some (s3, [1]) ∧
      s3.pending_call = some 2 ∧ s3.timer.active = false ∧
      ∃ s', run s3 [Op.invoke 4 500, Op.fire 100] = some (s', []) ∧
        s'.pending_call ≠ none ∧ s'.timer.active = false :=
  cancel_amended 100 0 10 1 2 (Throttle.init Nat 100)
    [Op.invoke 4 500, Op.fire 100] rfl rfl rfl (by decide)

/-! ## C8: reentrant calls during a deferred fire -/

/-- C8 counterexample: the claim says the deferred fire captures and
clears the pending call before invoking the wrapped function, so that a
pending call registered by a reentrant call from within the wrapped
function is not erased.  In the source, `_call_pending` invokes
`self._func` first and assigns `self._pending_call = None` afterwards:
if the wrapped function re-enters the throttle (here: a call with
arguments 7 at time 100, made while the pending slot still holds 2), the
re-entrant call stores 7 as the new pending call, and the assignment
that follows erases it. -/
theorem reentrant_pending_lost :
    (throttleCall (⟨100, some 2, some 0, ⟨false, 90, 100⟩⟩ : Throttle Nat)
        7 100).1.pending_call = some 7 ∧
    callPendingWith (fun _ st => (throttleCall st 7 100).1)
        (⟨100, some 2, some 0, ⟨false, 90, 100⟩⟩ : Throttle Nat) 100 =
      some ((⟨100, none, some 100, ⟨false, 90, 100⟩⟩ : Throttle Nat), [2]) := by
  exact ⟨rfl, rfl⟩

/-- C8 amended: during a deferred fire the wrapped function is invoked
first, on a state in which the pending slot is still occupied, and only
after it returns are the pending slot cleared and the last-call time
set; consequently, whatever effect the wrapped function has on the
throttle state (including re-entrant calls that store a new pending
call), the state after the fire has an empty pending slot — a pending
call registered re-entrantly is erased. -/
theorem deferred_fire_clears_after_target {α : Type}
    (tgt : α → Throttle α → Throttle α) (s : Throttle α) (now : Int) (p : α)
    (h : s.pending_call = some p) :
    callPendingWith tgt s now =
      some ({ tgt p s with pending_call := none, last_call_ms := some now }, [p]) ∧
    ∀ r, callPendingWith tgt s now = some r → r.1.pending_call = none := by
  have he : callPendingWith tgt s now =
      some ({ tgt p s with pending_call := none, last_call_ms := some now }, [p]) := by
    unfold callPendingWith
    rw [h]
  refine ⟨he, ?_⟩
  intro r hr
  rw [he] at hr
  rcases Option.some.inj hr with rfl
  rfl

theorem deferred_fire_clears_after_target_witness :
    callPendingWith (fun x st => (throttleCall st (x + 5) 100).1)
        (⟨100, some 2, some 0, ⟨false, 90, 100⟩⟩ : Throttle Nat) 100 =
      some ({ (fun (x : Nat) (st : Throttle Nat) => (throttleCall st (x + 5) 100).1) 2
                (⟨100, some 2, some 0, ⟨false, 90, 100⟩⟩ : Throttle Nat) with
              pending_call := none, last_call_ms := some 100 }, [2]) ∧
    ∀ r, callPendingWith (fun x st => (throttleCall st (x + 5) 100).1)
        (⟨100, some 2, some 0, ⟨false, 90, 100⟩⟩ : Throttle Nat) 100 = some r →
      r.1.pending_call = none :=
  deferred_fire_clears_after_target (fun x st => (throttleCall st (x + 5) 100).1)
    (⟨100, some 2, some 0, ⟨false, 90, 100⟩⟩ : Throttle Nat) 100 2 rfl
